import Mathlib

/-!
# Verification of the decaf-lsp document indexing and query engine

Shallow embedding of `src/lib.rs` and `src/main.rs` of the `decaf-lsp`
language server.  Machine integers (`u32`, `u64`) are modelled as `Nat`
with explicit wrap-around (`% 2^32`, `% 2^64`) at every arithmetic
operation that can overflow or underflow in the Rust source (release
semantics: wrapping).  The external collaborators (lexer, parser, type
checker from the `syntax` and `typeck` crates) are parameters of the
update pipeline; their output data types are modelled structurally from
their usage in `main.rs`.
-/

namespace Decaf

/-! ## Wrapping machine arithmetic (u32 / u64 as Nat) -/

/-- Wrapping `u64` subtraction: valid for `a, b < 2^64`. -/
def wsub64 (a b : Nat) : Nat := (a + (2 ^ 64 - b)) % 2 ^ 64

/-- Wrapping `u64` addition. -/
def wadd64 (a b : Nat) : Nat := (a + b) % 2 ^ 64

/-- Wrapping `u32` subtraction: valid for `a, b < 2^32`. -/
def wsub32 (a b : Nat) : Nat := (a + (2 ^ 32 - b)) % 2 ^ 32

/-- Wrapping `u32` addition. -/
def wadd32 (a b : Nat) : Nat := (a + b) % 2 ^ 32

/-! ## Protocol data model (`tower_lsp::lsp_types`)

Only the fields the source reads or writes are modelled.  The derived
`PartialOrd` on `Position { line, character }` is lexicographic. -/

structure Position where
  line : Nat
  character : Nat
deriving DecidableEq, Repr

/-- The derived lexicographic order on `lsp_types::Position`
(`line` first, then `character`), used by `<=` in the query loops. -/
def posLe (a b : Position) : Prop :=
  a.line < b.line ∨ (a.line = b.line ∧ a.character ≤ b.character)

instance (a b : Position) : Decidable (posLe a b) :=
  inferInstanceAs (Decidable (_ ∨ _))

structure Range where
  start : Position
  «end» : Position
deriving DecidableEq, Repr

structure Location where
  uri : String
  range : Range
deriving DecidableEq, Repr

inductive SymbolKind where
  | Class
  | Method
  | Field
deriving DecidableEq, Repr

structure SymbolInformation where
  name : String
  kind : SymbolKind
  deprecated : Option Bool
  location : Location
  containerName : Option String
deriving DecidableEq, Repr

/-- `Hover`: `contents` models the markdown scalar string built with
`MarkedString::from_markdown(format!(...))`. -/
structure Hover where
  contents : String
  range : Option Range
deriving DecidableEq, Repr

inductive FoldingRangeKind where
  | Region
deriving DecidableEq, Repr

structure FoldingRange where
  startLine : Nat
  startCharacter : Option Nat
  endLine : Nat
  endCharacter : Option Nat
  kind : Option FoldingRangeKind
deriving DecidableEq, Repr

/-- Only the `range` and `message` fields are ever set by the source
(all the other `Diagnostic` fields are `None`). -/
structure Diagnostic where
  range : Range
  message : String
deriving DecidableEq, Repr

inductive CompletionItemKind where
  | Function
deriving DecidableEq, Repr

inductive InsertTextFormat where
  | Snippet
deriving DecidableEq, Repr

/-- Only the four fields set by `Backend::complete` are modelled; the
remaining `CompletionItem::default()` fields are all `None`. -/
structure CompletionItem where
  label : String
  kind : Option CompletionItemKind
  insertText : Option String
  insertTextFormat : Option InsertTextFormat
deriving DecidableEq, Repr

/-! ## `common::Loc` and the position mapper (`src/lib.rs`)

`Loc` is the tuple struct `common::Loc(pub u32, pub u32)`: field `line`
models `.0`, field `col` models `.1`; both are `u32` values
(so `< 2^32` for any value the program can build). -/

structure Loc where
  line : Nat
  col : Nat
deriving DecidableEq, Repr

/-- `pos` (lib.rs): zero-guarded 1-based → 0-based conversion.
The subtractions are `u64` subtractions (`loc.0 as u64 - 1`). -/
def pos (loc : Loc) : Position :=
  if loc.line = 0 ∨ loc.col = 0 then
    { line := 0, character := 0 }
  else
    { line := wsub64 loc.line 1, character := wsub64 loc.col 1 }

/-- `range` (lib.rs): zero-width range at `pos loc`. -/
def range (loc : Loc) : Range :=
  { start := pos loc, «end» := pos loc }

/-- `range_name` (lib.rs): the end location is
`Loc(loc.0, loc.1 + name.as_bytes().len() as u32)` — a `u32` addition. -/
def range_name (loc : Loc) (name : String) : Range :=
  { start := pos loc
    «end» := pos { line := loc.line, col := wadd32 loc.col name.utf8ByteSize } }

/-- `range2` (lib.rs): range from `pos loc` to `pos end`. -/
def range2 (loc «end» : Loc) : Range :=
  { start := pos loc, «end» := pos «end» }

/-! ## Tokens (`syntax::parser::Token`), modelled from usage

Constructor names follow the Rust `TokenKind` variants matched in
`main.rs` (`_Eof` is written `Eof`); every other variant (keywords,
boolean literals, …) is modelled by `Other s` where `s` is its
`{:?}` (Debug) rendering. -/

inductive TokenKind where
  | Id | Le | Ge | Eq | Ne | And | Add | Sub | Mul | Div | Mod | Assign
  | Lt | Gt | Dot | Comma | Semi | Not | LPar | RPar | LBrk | RBrk
  | LBrc | RBrc | Colon
  | IntLit | StringLit | UntermString
  | Eof
  | Other (debugName : String)
deriving DecidableEq, Repr

structure Token where
  ty : TokenKind
  piece : String
  line : Nat
  col : Nat
deriving DecidableEq, Repr

/-- `token` (lib.rs): token extent range.  All four arithmetic chains
are `u64` operations with **no** zero guard:
`line - 1`, `col - 1`, and `(col + piece.len()) - 1 - 1`. -/
def token (t : Token) : Range :=
  { start :=
      { line := wsub64 t.line 1, character := wsub64 t.col 1 }
    «end» :=
      { line := wsub64 t.line 1
        character := wsub64 (wsub64 (wadd64 t.col t.piece.utf8ByteSize) 1) 1 } }

/-! ## AST (`syntax` crate), modelled structurally from its usage in `main.rs`

Only the shape the traversal consumes is kept.  Opaque display-only
data is modelled as the string the Rust code would format:
* `ty` fields hold the `{:?}` rendering of `.ty.get()`;
* `FuncDef.sig` holds the `{:?}` rendering of `Ty::mk_func(func)`;
* `VarSel`'s `var.get()` result is modelled by `VarTarget` (the resolved
  declaration's `loc` and `name`, the two fields read by `varsel`).
The `VarSel` struct's fields are inlined into the `varSel` constructor. -/

structure VarTarget where
  loc : Loc
  name : String
deriving Repr

mutual
inductive Expr where
  | mk (loc : Loc) (kind : ExprKind)
inductive ExprKind where
  | varSel (name : String) (owner : Option Expr) (ty : String) (var : Option VarTarget)
  | indexSel (arr idx : Expr)
  | call (func : Expr) (arg : List Expr)
  | unary (r : Expr)
  | binary (l r : Expr)
  | otherExpr
end

structure VarDef where
  loc : Loc
  name : String
  ty : String
  init : Option Expr

mutual
inductive Stmt where
  | mk (loc : Loc) (kind : StmtKind)
inductive StmtKind where
  | assign (dst src : Expr)
  | localVarDef (v : VarDef)
  | exprEval (e : Expr)
  | ifStmt (cond : Expr) (onTrue : Block) (onFalse : Option Block)
  | whileStmt (cond : Expr) (body : Block)
  | forStmt (init : Stmt) (cond : Expr) (update : Stmt) (body : Block)
  | returnStmt (e : Option Expr)
  | print (es : List Expr)
  | block (b : Block)
  | otherStmt
inductive Block where
  | mk (stmt : List Stmt)
end

structure FuncDef where
  loc : Loc
  name : String
  sig : String
  param : List VarDef
  body : Block

inductive FieldDef where
  | funcDef (f : FuncDef)
  | varDef (v : VarDef)

structure ClassDef where
  loc : Loc
  «end» : Loc
  name : String
  field : List FieldDef

structure Program where
  «class» : List ClassDef

/-! ## Per-document state (`main.rs` `FileState` / `State`) -/

structure FileState where
  content : String
  symbols : List SymbolInformation
  hovers : List (Range × Hover)
  ranges : List FoldingRange
  definitions : List (Range × Range)
deriving DecidableEq, Repr

/-- `FileState::default()`. -/
def FileState.empty : FileState :=
  { content := "", symbols := [], hovers := [], ranges := [], definitions := [] }

abbrev Url := String

/-- `State { files: HashMap<Url, FileState> }`, modelled as a partial map. -/
structure State where
  files : Url → Option FileState

/-- Read a file's state; a missing entry behaves as the default
(`State::get_file` inserts `FileState::default()` when vacant, which is
observationally the same for every query). -/
def getFile (st : State) (uri : Url) : FileState :=
  (st.files uri).getD FileState.empty

def setFile (st : State) (uri : Url) (f : FileState) : State :=
  { files := fun u => if u = uri then some f else st.files u }

/-! ## AST traversal (`Backend::expr` / `varsel` / `var` / `stmt` /
`block` / `field` / `class` / `program`)

The Rust functions mutate `&mut FileState`; they are embedded as
`FileState → FileState`, with `Vec::push` as appending at the end. -/

mutual
def exprF : Expr → FileState → FileState
  | .mk loc (.varSel name owner ty var), s => varselF loc name owner ty var s
  | .mk _ (.indexSel arr idx), s => exprF idx (exprF arr s)
  | .mk _ (.call func arg), s => exprListF arg (exprF func s)
  | .mk _ (.unary r), s => exprF r s
  | .mk _ (.binary l r), s => exprF r (exprF l s)
  | .mk _ .otherExpr, s => s

def exprListF : List Expr → FileState → FileState
  | [], s => s
  | e :: rest, s => exprListF rest (exprF e s)

/-- `Backend::varsel`: hover for the selected name, recursion into the
owner expression, and a definition link when the name resolved. -/
def varselF (loc : Loc) (name : String) (owner : Option Expr) (ty : String)
    (var : Option VarTarget) (s : FileState) : FileState :=
  let s : FileState := { s with hovers := s.hovers ++
    [(range_name loc name,
      { contents := name ++ ": " ++ ty, range := some (range loc) })] }
  let s := match owner with
    | some e => exprF e s
    | none => s
  match var with
  | some v => { s with definitions := s.definitions ++
      [(range_name loc name, range_name v.loc v.name)] }
  | none => s
end

/-- `Backend::var`: declaration hover for a `VarDef` (no recursion). -/
def varF (v : VarDef) (s : FileState) : FileState :=
  { s with hovers := s.hovers ++
    [(range_name v.loc v.name,
      { contents := v.name ++ ": " ++ v.ty, range := some (range v.loc) })] }

mutual
def stmtF : Stmt → FileState → FileState
  | .mk _ (.assign dst src), s => exprF src (exprF dst s)
  | .mk _ (.localVarDef v), s =>
    let s := varF v s
    (match v.init with
     | some e => exprF e s
     | none => s)
  | .mk _ (.exprEval e), s => exprF e s
  | .mk _ (.ifStmt cond onTrue onFalse), s =>
    let s := blockF onTrue (exprF cond s)
    (match onFalse with
     | some f => blockF f s
     | none => s)
  | .mk _ (.whileStmt cond body), s => blockF body (exprF cond s)
  | .mk _ (.forStmt init cond update body), s =>
    blockF body (stmtF update (exprF cond (stmtF init s)))
  | .mk _ (.returnStmt (some e)), s => exprF e s
  | .mk _ (.returnStmt none), s => s
  | .mk _ (.print es), s => exprListF es s
  | .mk _ (.block b), s => blockF b s
  | .mk _ .otherStmt, s => s

def stmtListF : List Stmt → FileState → FileState
  | [], s => s
  | st :: rest, s => stmtListF rest (stmtF st s)

def blockF : Block → FileState → FileState
  | .mk stmts, s => stmtListF stmts s
end

/-- `Backend::field`: symbol + hover for a method (then params and
body) or a data field. -/
def fieldF (uri : Url) (cls : ClassDef) (f : FieldDef) (s : FileState) : FileState :=
  match f with
  | .funcDef func =>
    let s : FileState := { s with symbols := s.symbols ++
      [{ name := func.name, kind := SymbolKind.Method, deprecated := none,
         location := { uri := uri, range := range func.loc },
         containerName := some cls.name }] }
    let s : FileState := { s with hovers := s.hovers ++
      [(range_name func.loc func.name,
        { contents := func.name ++ ": " ++ func.sig,
          range := some (range func.loc) })] }
    let s := func.param.foldl (fun s p => varF p s) s
    blockF func.body s
  | .varDef v =>
    let s : FileState := { s with symbols := s.symbols ++
      [{ name := v.name, kind := SymbolKind.Field, deprecated := none,
         location := { uri := uri, range := range v.loc },
         containerName := some cls.name }] }
    varF v s

/-- `Backend::class`: class symbol over `range2(loc, end)`, class-name
hover, folding range, then the fields in order. -/
def classF (uri : Url) (cls : ClassDef) (s : FileState) : FileState :=
  let classRange := range2 cls.loc cls.«end»
  let s : FileState := { s with symbols := s.symbols ++
    [{ name := cls.name, kind := SymbolKind.Class, deprecated := none,
       location := { uri := uri, range := classRange },
       containerName := none }] }
  let s : FileState := { s with hovers := s.hovers ++
    [(range_name cls.loc cls.name,
      { contents := cls.name, range := some classRange })] }
  let s : FileState := { s with ranges := s.ranges ++
    [{ startLine := wsub32 cls.loc.line 1, startCharacter := none,
       endLine := wsub32 cls.«end».line 1, endCharacter := none,
       kind := some FoldingRangeKind.Region }] }
  cls.field.foldl (fun s f => fieldF uri cls f s) s

/-- `Backend::program`: all classes in order. -/
def programF (uri : Url) (p : Program) (s : FileState) : FileState :=
  p.«class».foldl (fun s c => classF uri c s) s

/-! ## The update pipeline (`Backend::update`) -/

/-- The token kinds skipped by the lexical hover loop (the `continue`
branch of the big disjunction in `Backend::update`). -/
def skippedKind (k : TokenKind) : Bool :=
  match k with
  | .Id | .Le | .Ge | .Eq | .Ne | .And | .Add | .Sub | .Mul | .Div | .Mod
  | .Assign | .Lt | .Gt | .Dot | .Comma | .Semi | .Not | .LPar | .RPar
  | .LBrk | .RBrk | .LBrc | .RBrc | .Colon => true
  | _ => false

/-- The hover label for a kept token: the three literal kinds get
human-readable names, everything else its `{:?}` (Debug) rendering
(per-variant Debug names for the named variants, the carried string for
`Other`). -/
def tokenLabel (k : TokenKind) : String :=
  match k with
  | .IntLit => "Integer Literal"
  | .StringLit => "String Literal"
  | .UntermString => "Unterminated String Literal"
  | .Id => "Id" | .Le => "Le" | .Ge => "Ge" | .Eq => "Eq" | .Ne => "Ne"
  | .And => "And" | .Add => "Add" | .Sub => "Sub" | .Mul => "Mul"
  | .Div => "Div" | .Mod => "Mod" | .Assign => "Assign" | .Lt => "Lt"
  | .Gt => "Gt" | .Dot => "Dot" | .Comma => "Comma" | .Semi => "Semi"
  | .Not => "Not" | .LPar => "LPar" | .RPar => "RPar" | .LBrk => "LBrk"
  | .RBrk => "RBrk" | .LBrc => "LBrc" | .RBrc => "RBrc" | .Colon => "Colon"
  | .Eof => "Eof"
  | .Other s => s

/-- The lexical hover loop of `Backend::update`: consume tokens until
`_Eof`, skip the `skippedKind` set, and push a `(token range, label)`
hover (with `range: None`) for every kept token. -/
def tokenHovers : List Token → List (Range × Hover)
  | [] => []
  | t :: ts =>
    if t.ty = TokenKind.Eof then []
    else if skippedKind t.ty then tokenHovers ts
    else (token t, { contents := tokenLabel t.ty, range := none }) :: tokenHovers ts

/-- Parse/type errors: a `Location` plus the `{:?}` rendering of the
error payload (`err.0` / `err.1` in the source). -/
abbrev ErrorList := List (Loc × String)

/-- One `Diagnostic` per error: `range(&err.0)` and the error message. -/
def mkDiag (e : Loc × String) : Diagnostic :=
  { range := range e.1, message := e.2 }

/-- The AST pass of `Backend::update`: traverse a freshly defaulted
`FileState` and reverse the symbol list afterwards
(`file_state.symbols.reverse()`). -/
def astIndex (uri : Url) (p : Program) : FileState :=
  let fs := programF uri p FileState.empty
  { fs with symbols := fs.symbols.reverse }

/-- `Backend::update`, parameterised by the external collaborators:
`lex` (the `syntax::parser::Lexer` token stream for a content string),
`parse` (`syntax::parser::work`) and `typeck` (`typeck::work`).
Returns the new server state together with the published diagnostics.

Steps, in source order: store the lexical hovers (replacing the old
hover list) and the content; on parse success publish the type-check
diagnostics, then replace symbols / folding ranges / definitions and
**append** the AST hovers to the stored (token-derived) hovers; on
parse failure publish one diagnostic per parse error and leave
symbols / ranges / definitions untouched. -/
def update (lex : String → List Token)
    (parse : String → Except ErrorList Program)
    (typeck : Program → Except ErrorList Unit)
    (uri : Url) (content : String) (st : State) : State × List Diagnostic :=
  let hovers := tokenHovers (lex content)
  let st1 := setFile st uri
    { getFile st uri with hovers := hovers, content := content }
  match parse content with
  | .ok program =>
    let diag := match typeck program with
      | .ok _ => []
      | .error errors => errors.map mkDiag
    let fs := astIndex uri program
    let f := getFile st1 uri
    let st2 := setFile st1 uri
      { f with symbols := fs.symbols, hovers := f.hovers ++ fs.hovers,
               ranges := fs.ranges, definitions := fs.definitions }
    (st2, diag)
  | .error errors => (st1, errors.map mkDiag)

/-! ## Request handlers -/

/-- One step of the running-best scan shared by `Backend::hover` and
`Backend::goto_definition`: a containing candidate becomes the best
when there is no best yet, or when its range is nested inside the
current best's range (`range.end <= old_range.end && range.start >=
old_range.start`); otherwise the old best is kept. -/
def queryStep {α : Type} (p : Position) (result : Option (Range × α))
    (cand : Range × α) : Option (Range × α) :=
  if posLe cand.1.start p ∧ posLe p cand.1.«end» then
    match result with
    | some (oldRange, oldPayload) =>
      if posLe cand.1.«end» oldRange.«end» ∧ posLe oldRange.start cand.1.start then
        some cand
      else
        some (oldRange, oldPayload)
    | none => some cand
  else result

/-- The single-pass scan over an annotation collection. -/
def queryBest {α : Type} (entries : List (Range × α)) (p : Position) :
    Option (Range × α) :=
  entries.foldl (queryStep p) none

/-- `Backend::hover`: scan the stored hover list, return the winning
payload. -/
def hoverHandler (st : State) (uri : Url) (p : Position) : Option Hover :=
  (queryBest (getFile st uri).hovers p).map Prod.snd

/-- `Backend::goto_definition`: scan the stored `(ref, def)` list,
return a `Location` at the winning entry's definition range. -/
def gotoDefinition (st : State) (uri : Url) (p : Position) : Option Location :=
  (queryBest (getFile st uri).definitions p).map
    (fun res => { uri := uri, range := res.2 })

/-- `Backend::document_symbol`: the stored symbol list, as is. -/
def documentSymbol (st : State) (uri : Url) : List SymbolInformation :=
  (getFile st uri).symbols

/-- `Backend::complete`: filter the built-in names by
`builtin.starts_with(name)`; `Print` gets the `($1)` snippet, the other
built-ins get `()`.  (`starts_with` on ASCII strings is prefix of the
character list.) -/
def complete (_loc : Loc) (name : String) : List CompletionItem :=
  ["Print", "ReadInteger", "ReadLine"].foldl
    (fun res builtin =>
      if name.toList.isPrefixOf builtin.toList then
        res ++ [{ label := builtin,
                  kind := some CompletionItemKind.Function,
                  insertText := some (if builtin = "Print" then
                    builtin ++ "($1)" else builtin ++ "()"),
                  insertTextFormat := some InsertTextFormat.Snippet }]
      else res)
    []

/-- Rust `str::split("\n")` on the character list (the stored content
is ASCII in every scenario considered, so byte indexing and `char`
indexing coincide). -/
def splitLines (cs : List Char) : List (List Char) :=
  match cs with
  | [] => [[]]
  | c :: rest =>
    let r := splitLines rest
    if c = '\n' then [] :: r
    else match r with
      | l :: ls => (c :: l) :: ls
      | [] => [[c]]

/-- `Backend::completion`: index the content lines at `position.line`,
slice the line up to `position.character`, and take
`part.rmatches(char::is_alphabetic).next()` — i.e. the **last** single
alphabetic character of the slice — as the name passed to `complete`.
Returns `None` when the line does not exist or holds no alphabetic
character before the cursor. -/
def completionHandler (st : State) (uri : Url) (p : Position) :
    Option (List CompletionItem) :=
  let file := getFile st uri
  let lines := splitLines file.content.toList
  match lines[p.line]? with
  | some line =>
    let part := line.take p.character
    (match part.reverse.find? (fun c => c.isAlpha) with
     | some c =>
       some (complete { line := p.line + 1, col := p.character + 1 }
         (String.singleton c))
     | none => none)
  | none => none

/-- `Backend::did_close`: clear the symbol list of the closed URI, if
present; everything else (hovers, definitions, content, folding ranges,
other URIs) is left as it was.  An empty diagnostics list is published. -/
def didClose (uri : Url) (st : State) : State × List Diagnostic :=
  ({ files := fun u =>
      if u = uri then (st.files uri).map (fun f => { f with symbols := [] })
      else st.files u },
   [])

/-! ## Concrete scenario data

The lexer, parser and type checker live in the external `syntax` /
`typeck` crates; for the end-to-end scenarios their outputs on the
scenario sources are modelled below and passed to `update` as the
collaborator parameters. -/

/-- Modelled from the spec: the token stream of the external lexer
(`syntax::parser::Lexer`) for the scenario-1 source
`class Main \x7b void main() \x7b \x7d \x7d` (1-based columns;
keyword kinds rendered through `Other` with their Debug names). -/
def mainTokens : List Token :=
  [{ ty := TokenKind.Other "Class", piece := "class", line := 1, col := 1 },
   { ty := TokenKind.Id, piece := "Main", line := 1, col := 7 },
   { ty := TokenKind.LBrc, piece := "\x7b", line := 1, col := 12 },
   { ty := TokenKind.Other "Void", piece := "void", line := 1, col := 14 },
   { ty := TokenKind.Id, piece := "main", line := 1, col := 19 },
   { ty := TokenKind.LPar, piece := "(", line := 1, col := 23 },
   { ty := TokenKind.RPar, piece := ")", line := 1, col := 24 },
   { ty := TokenKind.LBrc, piece := "\x7b", line := 1, col := 26 },
   { ty := TokenKind.RBrc, piece := "\x7d", line := 1, col := 28 },
   { ty := TokenKind.RBrc, piece := "\x7d", line := 1, col := 30 },
   { ty := TokenKind.Eof, piece := "", line := 1, col := 31 }]

/-- Modelled from the spec: the external parser's
(`syntax::parser::work`) output for the scenario-1 source
`class Main \x7b void main() \x7b \x7d \x7d`: one class `Main`
(declaration head at column 1, closing brace at column 30) holding one
method `main` (name at column 19) with no parameters and an empty
body. -/
def mainProgram : Program :=
  { «class» :=
      [{ loc := { line := 1, col := 1 }, «end» := { line := 1, col := 30 },
         name := "Main",
         field :=
           [FieldDef.funcDef
             { loc := { line := 1, col := 19 }, name := "main",
               sig := "() -> void", param := [], body := Block.mk [] }] }] }

def mainUri : Url := "file:///main.decaf"

def mainContent : String := "class Main \x7b void main() \x7b \x7d \x7d"

def mainLex : String → List Token := fun _ => mainTokens

def mainParse : String → Except ErrorList Program := fun _ => Except.ok mainProgram

def mainTypeck : Program → Except ErrorList Unit := fun _ => Except.ok ()

/-- The server state after one successful update of scenario 1. -/
def mainState : State :=
  (update mainLex mainParse mainTypeck mainUri mainContent
    { files := fun _ => none }).1

def priUri : Url := "file:///pri.decaf"

/-- A state whose document content is the partial identifier `Pri`
(scenario 4): completion is requested at line 0, character 3. -/
def priState : State :=
  { files := fun u =>
      if u = priUri then some { FileState.empty with content := "Pri" }
      else none }

/-- The same document holding just `P` before the cursor. -/
def pState : State :=
  { files := fun u =>
      if u = priUri then some { FileState.empty with content := "P" }
      else none }

/-- The single completion item the `P` scenario produces. -/
def printItem : CompletionItem :=
  { label := "Print", kind := some CompletionItemKind.Function,
    insertText := some "Print($1)",
    insertTextFormat := some InsertTextFormat.Snippet }

/-! Witness data: a two-document state with a non-trivial file. -/

def wUri : Url := "file:///w.decaf"

def wOtherUri : Url := "file:///other.decaf"

def wFile : FileState :=
  { content := "old content",
    symbols := [{ name := "S", kind := SymbolKind.Class, deprecated := none,
                  location := { uri := wUri, range := range { line := 1, col := 1 } },
                  containerName := none }],
    hovers := [(range { line := 1, col := 1 }, { contents := "h", range := none })],
    ranges := [],
    definitions := [(range { line := 1, col := 1 }, range { line := 2, col := 2 })] }

def wState : State :=
  { files := fun u =>
      if u = wUri then some wFile
      else if u = wOtherUri then some FileState.empty
      else none }

/-- A parse-error result: one error with a location and a message. -/
def wErrors : ErrorList := [({ line := 1, col := 13 }, "unexpected end of file")]

def wLex : String → List Token := fun _ => [{ ty := TokenKind.Eof, piece := "", line := 1, col := 13 }]

def wParseErr : String → Except ErrorList Program := fun _ => Except.error wErrors

def wTypeck : Program → Except ErrorList Unit := fun _ => Except.ok ()

/-! ## Helper lemmas -/

theorem posLe_antisymm (a b : Position) (h1 : posLe a b) (h2 : posLe b a) :
    a = b := by
  unfold posLe at h1 h2
  cases a
  cases b
  simp only [Position.mk.injEq]
  simp only at h1 h2
  omega

theorem Range_ext (r s : Range) (h1 : r.start = s.start)
    (h2 : r.«end» = s.«end») : r = s := by
  cases r
  cases s
  simp_all

theorem getFile_setFile (st : State) (uri : Url) (f : FileState) :
    getFile (setFile st uri f) uri = f := by
  simp [getFile, setFile]

theorem setFile_setFile (st : State) (uri : Url) (f g : FileState) :
    setFile (setFile st uri f) uri g = setFile st uri g := by
  unfold setFile
  simp only [State.mk.injEq]
  funext u
  by_cases h : u = uri <;> simp [h]

/-! ## Claims -/

/-- Claim C7: for every location, the position mapper returns the
protocol zero position when `line = 0` or `column = 0`, and
`(line − 1, column − 1)` otherwise; the conversion never underflows
(the result never exceeds the input coordinates). -/
theorem pos_zero_guard (l : Loc) :
    ((l.line = 0 ∨ l.col = 0) → pos l = { line := 0, character := 0 }) ∧
    (1 ≤ l.line → l.line < 2 ^ 64 → 1 ≤ l.col → l.col < 2 ^ 64 →
      pos l = { line := l.line - 1, character := l.col - 1 }) ∧
    (pos l).line ≤ l.line ∧ (pos l).character ≤ l.col := by
  refine ⟨fun h => by simp [pos, h], fun h1 h2 h3 h4 => ?_, ?_, ?_⟩
  · have hg : ¬(l.line = 0 ∨ l.col = 0) := by omega
    simp only [pos, hg, if_false, wsub64, Position.mk.injEq]
    omega
  · by_cases hg : l.line = 0 ∨ l.col = 0
    · simp [pos, hg]
    · simp only [pos, hg, if_false, wsub64]
      omega
  · by_cases hg : l.line = 0 ∨ l.col = 0
    · simp [pos, hg]
    · simp only [pos, hg, if_false, wsub64]
      omega

theorem pos_zero_guard_witness :
    pos { line := 0, col := 5 } = { line := 0, character := 0 } ∧
    pos { line := 3, col := 4 } = { line := 2, character := 3 } :=
  ⟨(pos_zero_guard _).1 (Or.inl rfl),
   (pos_zero_guard _).2.1 (by decide) (by decide) (by decide) (by decide)⟩

/-- Claim C8, counterexample: for the sentinel location with
`line = 0`, `toNamedRange` clamps both endpoints to the zero position,
so the range does **not** end `n` positions after its start
(`n = 2` for the name `ab`). -/
theorem range_name_zero_line_counterexample :
    range_name { line := 0, col := 5 } "ab" =
      { start := { line := 0, character := 0 },
        «end» := { line := 0, character := 0 } } ∧
    ¬((range_name { line := 0, col := 5 } "ab").«end».character =
      (range_name { line := 0, col := 5 } "ab").start.character +
        "ab".utf8ByteSize) := by
  constructor
  · decide
  · decide

/-- Claim C8, amended: `toNamedRange` always starts at
`toProtocolPosition(L)`; whenever the location is non-degenerate
(`line ≥ 1`, `column ≥ 1`, coordinates in `u32` range with no overflow
in `column + n`), the range ends exactly `n` positions later on the
same line, where `n` is the name's byte length. -/
theorem range_name_span_amended (l : Loc) (name : String) :
    (range_name l name).start = pos l ∧
    (1 ≤ l.line → l.line < 2 ^ 64 → 1 ≤ l.col →
      l.col + name.utf8ByteSize < 2 ^ 32 →
      (range_name l name).«end».line = (range_name l name).start.line ∧
      (range_name l name).«end».character =
        (range_name l name).start.character + name.utf8ByteSize) := by
  refine ⟨rfl, fun h1 h2 h3 h4 => ?_⟩
  have hg : ¬(l.line = 0 ∨ l.col = 0) := by omega
  have hadd : wadd32 l.col name.utf8ByteSize = l.col + name.utf8ByteSize := by
    unfold wadd32
    omega
  have hg2 : ¬(l.line = 0 ∨ l.col + name.utf8ByteSize = 0) := by omega
  simp only [range_name, pos, hadd, hg, hg2, if_false, wsub64]
  refine ⟨trivial, ?_⟩
  omega

theorem range_name_span_amended_witness :
    (range_name { line := 1, col := 1 } "x").start =
      pos { line := 1, col := 1 } ∧
    ((range_name { line := 1, col := 1 } "x").«end».line =
      (range_name { line := 1, col := 1 } "x").start.line ∧
     (range_name { line := 1, col := 1 } "x").«end».character =
      (range_name { line := 1, col := 1 } "x").start.character +
        "x".utf8ByteSize) :=
  ⟨(range_name_span_amended _ _).1,
   (range_name_span_amended _ _).2 (by decide) (by decide) (by decide)
     (by decide)⟩

/-- Claim C9: for every (well-formed) token — 1-based line and column,
non-empty text, coordinates in machine range — `toTokenRange` returns a
single-line range whose end character is the token's start column plus
the text's byte length minus 2, which exceeds the start character by
exactly the token length minus 1. -/
theorem token_range_span (t : Token) :
    1 ≤ t.line → t.line < 2 ^ 64 → 1 ≤ t.col → 1 ≤ t.piece.utf8ByteSize →
    t.col + t.piece.utf8ByteSize < 2 ^ 64 →
    (token t).«end».line = (token t).start.line ∧
    (token t).«end».character = t.col + t.piece.utf8ByteSize - 2 ∧
    (token t).«end».character =
      (token t).start.character + (t.piece.utf8ByteSize - 1) := by
  intro h1 h2 h3 h4 h5
  unfold token wsub64 wadd64
  refine ⟨rfl, ?_, ?_⟩ <;> simp only <;> omega

theorem token_range_span_witness :
    (token { ty := TokenKind.IntLit, piece := "42", line := 3, col := 5 }).«end».line =
      (token { ty := TokenKind.IntLit, piece := "42", line := 3, col := 5 }).start.line ∧
    (token { ty := TokenKind.IntLit, piece := "42", line := 3, col := 5 }).«end».character = 5 ∧
    (token { ty := TokenKind.IntLit, piece := "42", line := 3, col := 5 }).«end».character =
      (token { ty := TokenKind.IntLit, piece := "42", line := 3, col := 5 }).start.character + 1 :=
  token_range_span _ (by decide) (by decide) (by decide) (by decide)
    (by decide)

/-- Claim C10: `toTokenRange` applies its `−1` adjustments with no zero
guard: under the precondition `line ≥ 1`, `col ≥ 1`,
`col + length ≥ 2` the subtractions are exact, but for a token with
`line = 0`, `col = 0`, or zero-length text at column 1, the unsigned
subtraction wraps to `2^64 − 1` instead of clamping to the zero
position — in contrast with `pos`, which clamps. -/
theorem token_no_zero_guard :
    (∀ t : Token, 1 ≤ t.line → t.line < 2 ^ 64 → 1 ≤ t.col →
      2 ≤ t.col + t.piece.utf8ByteSize →
      t.col + t.piece.utf8ByteSize < 2 ^ 64 →
      (token t).start.line = t.line - 1 ∧
      (token t).start.character = t.col - 1 ∧
      (token t).«end».character = t.col + t.piece.utf8ByteSize - 2) ∧
    (token { ty := TokenKind.Id, piece := "if", line := 0, col := 5 }).start.line =
      2 ^ 64 - 1 ∧
    (token { ty := TokenKind.Id, piece := "if", line := 3, col := 0 }).start.character =
      2 ^ 64 - 1 ∧
    (token { ty := TokenKind.Id, piece := "", line := 1, col := 1 }).«end».character =
      2 ^ 64 - 1 ∧
    pos { line := 0, col := 5 } = { line := 0, character := 0 } ∧
    pos { line := 3, col := 0 } = { line := 0, character := 0 } := by
  refine ⟨fun t h1 h2 h3 h4 h5 => ?_, by decide, by decide, by decide,
    by decide, by decide⟩
  unfold token wsub64 wadd64
  refine ⟨?_, ?_, ?_⟩ <;> simp only <;> omega

theorem token_no_zero_guard_witness :
    (token { ty := TokenKind.IntLit, piece := "42", line := 3, col := 5 }).start.line = 2 ∧
    (token { ty := TokenKind.IntLit, piece := "42", line := 3, col := 5 }).start.character = 4 ∧
    (token { ty := TokenKind.IntLit, piece := "42", line := 3, col := 5 }).«end».character = 5 :=
  token_no_zero_guard.1 _ (by decide) (by decide) (by decide) (by decide)
    (by decide)

/-- Claim C1: the hover / definition query is a single left-to-right
scan with a running best (appending one more entry runs exactly one
more `queryStep`); a containing candidate replaces the current best
exactly when its range is nested in the best's range; consequently, for
a point lying in both an outer and a nested annotation, the nested
annotation's payload wins in either traversal order (for both the hover
and the definition-link query), and among non-nested overlapping
candidates the first in traversal order wins. -/
theorem query_scan_nested_wins :
    (∀ (α : Type) (l : List (Range × α)) (c : Range × α) (p : Position),
      queryBest (l ++ [c]) p = queryStep p (queryBest l p) c) ∧
    (∀ (α : Type) (best cand : Range × α) (p : Position),
      posLe cand.1.start p → posLe p cand.1.«end» →
      queryStep p (some best) cand =
        if posLe cand.1.«end» best.1.«end» ∧ posLe best.1.start cand.1.start
        then some cand else some best) ∧
    (∀ (rA rB : Range) (hA hB : Hover) (p : Position) (uri : Url),
      posLe rA.start p → posLe p rA.«end» →
      posLe rB.start p → posLe p rB.«end» →
      posLe rA.start rB.start → posLe rB.«end» rA.«end» → rA ≠ rB →
      (hoverHandler (setFile { files := fun _ => none } uri
          { FileState.empty with hovers := [(rA, hA), (rB, hB)] }) uri p =
        some hB ∧
       hoverHandler (setFile { files := fun _ => none } uri
          { FileState.empty with hovers := [(rB, hB), (rA, hA)] }) uri p =
        some hB)) ∧
    (∀ (rA rB dA dB : Range) (p : Position) (uri : Url),
      posLe rA.start p → posLe p rA.«end» →
      posLe rB.start p → posLe p rB.«end» →
      posLe rA.start rB.start → posLe rB.«end» rA.«end» → rA ≠ rB →
      (gotoDefinition (setFile { files := fun _ => none } uri
          { FileState.empty with definitions := [(rA, dA), (rB, dB)] }) uri p =
        some { uri := uri, range := dB } ∧
       gotoDefinition (setFile { files := fun _ => none } uri
          { FileState.empty with definitions := [(rB, dB), (rA, dA)] }) uri p =
        some { uri := uri, range := dB })) ∧
    (∀ (α : Type) (A B : Range × α) (p : Position),
      posLe A.1.start p → posLe p A.1.«end» →
      posLe B.1.start p → posLe p B.1.«end» →
      ¬(posLe B.1.«end» A.1.«end» ∧ posLe A.1.start B.1.start) →
      queryBest [A, B] p = some A) := by
  have hstep : ∀ (α : Type) (best cand : Range × α) (p : Position),
      posLe cand.1.start p → posLe p cand.1.«end» →
      queryStep p (some best) cand =
        if posLe cand.1.«end» best.1.«end» ∧ posLe best.1.start cand.1.start
        then some cand else some best := by
    intro α best cand p h1 h2
    simp only [queryStep, if_pos (And.intro h1 h2)]
  have hfirst : ∀ (α : Type) (cand : Range × α) (p : Position),
      posLe cand.1.start p → posLe p cand.1.«end» →
      queryStep p none cand = some cand := by
    intro α cand p h1 h2
    simp only [queryStep, if_pos (And.intro h1 h2)]
  have hnested : ∀ (α : Type) (A B : Range × α) (p : Position),
      posLe A.1.start p → posLe p A.1.«end» →
      posLe B.1.start p → posLe p B.1.«end» →
      posLe A.1.start B.1.start → posLe B.1.«end» A.1.«end» → A.1 ≠ B.1 →
      queryBest [A, B] p = some B ∧ queryBest [B, A] p = some B := by
    intro α A B p hA1 hA2 hB1 hB2 hs he hne
    constructor
    · show queryStep p (queryStep p none A) B = some B
      rw [hfirst α A p hA1 hA2, hstep α A B p hB1 hB2, if_pos ⟨he, hs⟩]
    · show queryStep p (queryStep p none B) A = some B
      rw [hfirst α B p hB1 hB2, hstep α B A p hA1 hA2, if_neg ?_]
      rintro ⟨he', hs'⟩
      exact hne (Range_ext _ _ (posLe_antisymm _ _ hs hs')
        (posLe_antisymm _ _ he' he))
  refine ⟨?_, hstep, ?_, ?_, ?_⟩
  · intro α l c p
    simp [queryBest, List.foldl_append]
  · intro rA rB hA hB p uri h1 h2 h3 h4 h5 h6 hne
    have h := hnested Hover (rA, hA) (rB, hB) p h1 h2 h3 h4 h5 h6 hne
    unfold hoverHandler
    rw [getFile_setFile, getFile_setFile]
    show ((queryBest [(rA, hA), (rB, hB)] p).map Prod.snd = _ ∧
      (queryBest [(rB, hB), (rA, hA)] p).map Prod.snd = _)
    rw [h.1, h.2]
    exact ⟨rfl, rfl⟩
  · intro rA rB dA dB p uri h1 h2 h3 h4 h5 h6 hne
    have h := hnested Range (rA, dA) (rB, dB) p h1 h2 h3 h4 h5 h6 hne
    unfold gotoDefinition
    rw [getFile_setFile, getFile_setFile]
    show ((queryBest [(rA, dA), (rB, dB)] p).map _ = _ ∧
      (queryBest [(rB, dB), (rA, dA)] p).map _ = _)
    rw [h.1, h.2]
    exact ⟨rfl, rfl⟩
  · intro α A B p hA1 hA2 hB1 hB2 hnot
    show queryStep p (queryStep p none A) B = some A
    rw [hfirst α A p hA1 hA2, hstep α A B p hB1 hB2, if_neg hnot]

theorem query_scan_nested_wins_witness :
    hoverHandler (setFile { files := fun _ => none } "file:///q.decaf"
        { FileState.empty with hovers :=
            [({ start := { line := 0, character := 0 },
                «end» := { line := 9, character := 99 } },
              { contents := "outer", range := none }),
             ({ start := { line := 2, character := 0 },
                «end» := { line := 3, character := 99 } },
              { contents := "nested", range := none })] })
      "file:///q.decaf" { line := 2, character := 5 } =
      some { contents := "nested", range := none } ∧
    hoverHandler (setFile { files := fun _ => none } "file:///q.decaf"
        { FileState.empty with hovers :=
            [({ start := { line := 2, character := 0 },
                «end» := { line := 3, character := 99 } },
              { contents := "nested", range := none }),
             ({ start := { line := 0, character := 0 },
                «end» := { line := 9, character := 99 } },
              { contents := "outer", range := none })] })
      "file:///q.decaf" { line := 2, character := 5 } =
      some { contents := "nested", range := none } ∧
    queryBest [({ start := { line := 0, character := 0 },
                  «end» := { line := 5, character := 0 } }, 1),
               ({ start := { line := 3, character := 0 },
                  «end» := { line := 8, character := 0 } }, 2)]
        { line := 4, character := 0 } =
      some ({ start := { line := 0, character := 0 },
              «end» := { line := 5, character := 0 } }, 1) :=
  ⟨(query_scan_nested_wins.2.2.1 _ _ _ _ _ _ (by decide) (by decide)
      (by decide) (by decide) (by decide) (by decide) (by decide)).1,
   (query_scan_nested_wins.2.2.1 _ _ _ _ _ _ (by decide) (by decide)
      (by decide) (by decide) (by decide) (by decide) (by decide)).2,
   query_scan_nested_wins.2.2.2.2 Nat _ _ _ (by decide) (by decide)
      (by decide) (by decide) (by decide)⟩

/-- Claim C2, counterexample: after a successful update of
`class Main \x7b void main() \x7b \x7d \x7d`, the document-symbol list
is `[Method main, Class Main]`, not `[Class Main, Method main]`: the
traversal pushes the class before its method, and the final `reverse()`
therefore surfaces the method *first*. -/
theorem documentSymbol_order_counterexample :
    (documentSymbol mainState mainUri).map (fun s => (s.name, s.kind)) =
      [("main", SymbolKind.Method), ("Main", SymbolKind.Class)] ∧
    (documentSymbol mainState mainUri).map (fun s => (s.name, s.kind)) ≠
      [("Main", SymbolKind.Class), ("main", SymbolKind.Method)] := by
  constructor
  · decide
  · decide

/-- Claim C2, amended: the query returns exactly two entries, but in
the order [Method `main` (container `Main`, range at the method head),
Class `Main` (range spanning the full class declaration)]: reversing
the traversal-order symbol list surfaces *later* declarations first. -/
theorem documentSymbol_order_amended :
    documentSymbol mainState mainUri =
      [{ name := "main", kind := SymbolKind.Method, deprecated := none,
         location := { uri := mainUri,
                       range := range { line := 1, col := 19 } },
         containerName := some "Main" },
       { name := "Main", kind := SymbolKind.Class, deprecated := none,
         location := { uri := mainUri,
                       range := range2 { line := 1, col := 1 }
                         { line := 1, col := 30 } },
         containerName := none }] := by
  decide

/-- Claim C3, counterexample: with the document content `Pri` and the
cursor at character 3, completion returns `Some([])` — zero items,
not one item labelled `Print`: `rmatches(char::is_alphabetic).next()`
extracts only the last alphabetic character `i`, and no built-in starts
with `i`. -/
theorem completion_Pri_counterexample :
    completionHandler priState priUri { line := 0, character := 3 } =
      some [] ∧
    ¬(∃ item : CompletionItem,
       completionHandler priState priUri { line := 0, character := 3 } =
         some [item] ∧ item.label = "Print") := by
  have h : completionHandler priState priUri { line := 0, character := 3 } =
      some [] := by decide
  refine ⟨h, ?_⟩
  rintro ⟨item, hitem, -⟩
  rw [h] at hitem
  simp at hitem

/-- Claim C3, amended: the name passed to the prefix filter is only the
*last* alphabetic character before the cursor, so `Pri` yields no
items; a built-in item is returned exactly when the built-in starts
with that single character (hence `P` yields the single item `Print`
with snippet text `Print($1)`). -/
theorem completion_last_char_amended :
    (∀ (l : Loc) (name : String),
      (complete l name).map (fun i => i.label) =
        ["Print", "ReadInteger", "ReadLine"].filter
          (fun b => name.toList.isPrefixOf b.toList)) ∧
    completionHandler priState priUri { line := 0, character := 3 } =
      some [] ∧
    completionHandler pState priUri { line := 0, character := 1 } =
      some [printItem] := by
  refine ⟨fun l name => ?_, by decide, by decide⟩
  simp only [complete, List.foldl, List.filter]
  cases h1 : name.toList.isPrefixOf "Print".toList <;>
    cases h2 : name.toList.isPrefixOf "ReadInteger".toList <;>
      cases h3 : name.toList.isPrefixOf "ReadLine".toList <;>
        simp [h1, h2, h3]

/-- Normal form of `update` on parse success. -/
theorem update_ok_normal (lex : String → List Token)
    (parse : String → Except ErrorList Program)
    (typeck : Program → Except ErrorList Unit)
    (uri : Url) (content : String) (st : State) (prog : Program)
    (hp : parse content = Except.ok prog) :
    update lex parse typeck uri content st =
      (setFile st uri
        { content := content,
          symbols := (astIndex uri prog).symbols,
          hovers := tokenHovers (lex content) ++ (astIndex uri prog).hovers,
          ranges := (astIndex uri prog).ranges,
          definitions := (astIndex uri prog).definitions },
       match typeck prog with
       | Except.ok _ => []
       | Except.error errors => errors.map mkDiag) := by
  simp only [update, hp, getFile_setFile, setFile_setFile]

/-- Normal form of `update` on parse failure. -/
theorem update_err_normal (lex : String → List Token)
    (parse : String → Except ErrorList Program)
    (typeck : Program → Except ErrorList Unit)
    (uri : Url) (content : String) (st : State) (errs : ErrorList)
    (hp : parse content = Except.error errs) :
    update lex parse typeck uri content st =
      (setFile st uri
        { getFile st uri with hovers := tokenHovers (lex content),
                              content := content },
       errs.map mkDiag) := by
  simp only [update, hp]

/-- Claim C4: if parsing fails during an update, the stored symbol list
and definition-link list for that URI remain exactly what they were
before the edit, and each parse error becomes one diagnostic carrying
that error's location (as a zero-width range) and message. -/
theorem update_parse_failure_frame (lex : String → List Token)
    (parse : String → Except ErrorList Program)
    (typeck : Program → Except ErrorList Unit)
    (uri : Url) (content : String) (st : State) (errors : ErrorList)
    (hp : parse content = Except.error errors) :
    (getFile (update lex parse typeck uri content st).1 uri).symbols =
      (getFile st uri).symbols ∧
    (getFile (update lex parse typeck uri content st).1 uri).definitions =
      (getFile st uri).definitions ∧
    (update lex parse typeck uri content st).2 =
      errors.map (fun e => { range := range e.1, message := e.2 }) := by
  rw [update_err_normal lex parse typeck uri content st errors hp]
  refine ⟨?_, ?_, rfl⟩ <;> rw [getFile_setFile]

theorem update_parse_failure_frame_witness :
    (getFile (update wLex wParseErr wTypeck wUri "class Main \x7b" wState).1
        wUri).symbols =
      (getFile wState wUri).symbols ∧
    (getFile (update wLex wParseErr wTypeck wUri "class Main \x7b" wState).1
        wUri).definitions =
      (getFile wState wUri).definitions ∧
    (update wLex wParseErr wTypeck wUri "class Main \x7b" wState).2 =
      wErrors.map (fun e => { range := range e.1, message := e.2 }) :=
  update_parse_failure_frame wLex wParseErr wTypeck wUri "class Main \x7b"
    wState wErrors rfl

/-- Claim C5: closing a document clears only that URI's symbol list;
its hover list, definition-link list, content (and folding ranges) are
retained, and every other URI's entry is untouched. -/
theorem didClose_clears_only_symbols (st : State) (uri : Url)
    (f : FileState) (h : st.files uri = some f) :
    (didClose uri st).1.files uri = some
      { content := f.content, symbols := [], hovers := f.hovers,
        ranges := f.ranges, definitions := f.definitions } ∧
    (∀ u : Url, u ≠ uri → (didClose uri st).1.files u = st.files u) := by
  constructor
  · simp [didClose, h]
  · intro u hu
    simp [didClose, hu]

theorem didClose_clears_only_symbols_witness :
    (didClose wUri wState).1.files wUri = some
      { content := wFile.content, symbols := [], hovers := wFile.hovers,
        ranges := wFile.ranges, definitions := wFile.definitions } ∧
    (∀ u : Url, u ≠ wUri → (didClose wUri wState).1.files u =
      wState.files u) :=
  didClose_clears_only_symbols wState wUri wFile (by decide)

/-- Claim C6: `update` is idempotent — running the pipeline twice with
identical text for the same URI yields the same state and diagnostics
as running it once (same symbols, hovers, definitions, both times);
on parse success the stored hover list is the token-derived hovers
followed by the AST-derived hovers. -/
theorem update_idempotent (lex : String → List Token)
    (parse : String → Except ErrorList Program)
    (typeck : Program → Except ErrorList Unit)
    (uri : Url) (content : String) (st : State) :
    update lex parse typeck uri content
        (update lex parse typeck uri content st).1 =
      update lex parse typeck uri content st ∧
    (∀ prog : Program, parse content = Except.ok prog →
      (getFile (update lex parse typeck uri content st).1 uri).hovers =
        tokenHovers (lex content) ++ (astIndex uri prog).hovers) := by
  constructor
  · cases hp : parse content with
    | ok prog =>
      have h1 := update_ok_normal lex parse typeck uri content st prog hp
      rw [h1,
        update_ok_normal lex parse typeck uri content _ prog hp,
        setFile_setFile]
    | error errs =>
      have h1 := update_err_normal lex parse typeck uri content st errs hp
      rw [h1, update_err_normal lex parse typeck uri content _ errs hp,
        getFile_setFile, setFile_setFile]
  · intro prog hp
    rw [update_ok_normal lex parse typeck uri content st prog hp,
      getFile_setFile]

theorem update_idempotent_witness :
    (getFile (update mainLex mainParse mainTypeck mainUri mainContent
        { files := fun _ => none }).1 mainUri).hovers =
      tokenHovers (mainLex mainContent) ++
        (astIndex mainUri mainProgram).hovers :=
  (update_idempotent mainLex mainParse mainTypeck mainUri mainContent
    { files := fun _ => none }).2 mainProgram rfl

end Decaf
